import Mathlib

/-!
Verification of the resumable chunked transfer engine of the file-now
repository: a shallow embedding of the client upload pipeline
(compression decision, chunking, per-chunk retry with backoff, progress
accounting), the server chunk-assembly response, the resumable streaming
download pipeline, and the metadata expiry check, together with theorems
about the properties the specification states for them.

Byte payloads are modelled as `List Nat` (one entry per byte), sizes and
counts as `Nat`, timestamps and delays as integer milliseconds, and the
compression ratio as an exact rational.  The external gzip codec (the
`pako` library) is a parameter of the statements that need it, constrained
only by its round-trip law.
-/

namespace FileNow

/-! ### String helpers modelling the JavaScript string operations used by
the source (`String.prototype.endsWith`, `String.prototype.includes`,
`String.prototype.toLowerCase`). -/

/-- JS `startsWith` on character lists: does the first list begin with the
second? -/
def listStartsWith : List Char → List Char → Bool
  | _, [] => true
  | [], _ :: _ => false
  | c :: cs, p :: ps => c == p && listStartsWith cs ps

/-- JS `includes` on character lists: does the pattern occur contiguously in
the list? -/
def listHasSub : List Char → List Char → Bool
  | [], pat => pat.isEmpty
  | l@(_ :: cs), pat => listStartsWith l pat || listHasSub cs pat

/-- JS `String.prototype.endsWith`. -/
def strEndsWith (s suffix : String) : Bool :=
  let l := s.toList
  let p := suffix.toList
  p == l.drop (l.length - p.length)

/-- JS `String.prototype.includes`. -/
def strHasSub (s pat : String) : Bool :=
  listHasSub s.toList pat.toList

/-- JS `String.prototype.toLowerCase` (ASCII as used by the source). -/
def strLower (s : String) : String :=
  String.mk (s.toList.map Char.toLower)

/-! ### Compression decision (`isAlreadyCompressed` and the
`shouldCompress` expression of `uploadFileInChunks`). -/

/-- The known-precompressed file extensions. -/
def compressedExtensions : List String :=
  [".zip", ".rar", ".7z", ".tar.gz", ".tgz", ".tar.bz2", ".tbz2", ".tar.xz",
   ".txz", ".gz", ".bz2", ".xz", ".lz", ".lzma", ".z", ".jpg", ".jpeg",
   ".png", ".gif", ".webp", ".avif", ".heic", ".heif", ".mp4", ".avi",
   ".mkv", ".mov", ".wmv", ".flv", ".webm", ".m4v", ".3gp", ".mp3", ".aac",
   ".ogg", ".wma", ".m4a", ".opus", ".flac", ".pdf", ".docx", ".xlsx",
   ".pptx", ".odt", ".ods", ".odp", ".apk", ".ipa", ".deb", ".rpm", ".dmg",
   ".iso"]

/-- The known-precompressed MIME types. -/
def compressedMimeTypes : List String :=
  ["application/zip", "application/x-rar-compressed",
   "application/x-7z-compressed", "application/gzip", "application/x-bzip2",
   "application/x-xz", "image/jpeg", "image/png", "image/gif", "image/webp",
   "video/mp4", "video/avi", "video/quicktime", "video/x-msvideo",
   "audio/mpeg", "audio/aac", "audio/ogg", "audio/x-ms-wma",
   "application/pdf"]

/-- Whether a file is judged already compressed, by extension of its
lowercased name or by MIME type (JS `includes` substring test; an empty
MIME string is falsy and skips the MIME check). -/
def isAlreadyCompressed (fileName mimeType : String) : Bool :=
  let lowerFileName := strLower fileName
  let isCompressedByExtension :=
    compressedExtensions.any (fun ext => strEndsWith lowerFileName ext)
  let isCompressedByMime :=
    if mimeType.isEmpty then false
    else compressedMimeTypes.any (fun t => strHasSub mimeType t)
  isCompressedByExtension || isCompressedByMime

/-- The compression decision of `uploadFileInChunks`:
`compressionEnabled && file.size > 1024 * 100 && !isAlreadyCompressed(...)`. -/
def shouldCompress (compressionEnabled : Bool) (fileName mimeType : String)
    (size : Nat) : Bool :=
  compressionEnabled && decide (1024 * 100 < size) &&
    !(isAlreadyCompressed fileName mimeType)

/-! ### Compressor (`compressFile`) and the orchestrator's compression
step.  The gzip codec itself (`pako`) is external to the repository, so it
enters as a function parameter `gz`; `gzOk` models whether the compression
attempt succeeds (its failure path falls back to the original file). -/

/-- `compressFile`: gzip the bytes, compute
`ratio = (1 - compressedSize / originalSize) * 100`, and if the ratio is
below 5 report the original file with ratio 0. -/
def compressFileModel (gz : List Nat → List Nat) (data : List Nat) :
    List Nat × ℚ :=
  let compressed := gz data
  let compressionRatio : ℚ :=
    (1 - (compressed.length : ℚ) / (data.length : ℚ)) * 100
  if compressionRatio < 5 then (data, 0) else (compressed, compressionRatio)

/-- The orchestrator's choice of payload: compress when the decision says
so and the attempt succeeds with a positive reported ratio, otherwise keep
the original bytes.  Returns `(compressedFlag, uploadedBytes)`. -/
def uploadPayload (gz : List Nat → List Nat) (gzOk : Bool)
    (compressionEnabled : Bool) (fileName mimeType : String)
    (data : List Nat) : Bool × List Nat :=
  if shouldCompress compressionEnabled fileName mimeType data.length then
    if gzOk then
      let res := compressFileModel gz data
      if 0 < res.2 then (true, res.1) else (false, data)
    else (false, data)
  else (false, data)

/-- The download side's treatment of a stored object: gunzip it exactly
when its metadata marks it compressed (the `GET` download routes). -/
def downloadServe (ungz : List Nat → List Nat) (compressedFlag : Bool)
    (stored : List Nat) : List Nat :=
  if compressedFlag then ungz stored else stored

/-! ### Chunk splitter (`uploadFileInChunks`). -/

/-- The fixed chunk size, `1024 * 1024 * 1.5` bytes. -/
def defaultChunkSize : Nat := 1572864

/-- `totalChunks = Math.ceil(size / chunkSize)`. -/
def totalChunksOf (S C : Nat) : Nat := (S + C - 1) / C

/-- The per-chunk sizes recorded in the `chunks` progress array:
`index == totalChunks - 1 ? size - index * chunkSize : chunkSize`. -/
def chunkSizesOf (S C : Nat) : List Nat :=
  (List.range (totalChunksOf S C)).map
    (fun i => if i = totalChunksOf S C - 1 then S - i * C else C)

/-- The length of the slice the upload loop actually sends for chunk `i`:
`min(start + chunkSize, size) - start` with `start = i * chunkSize`. -/
def sliceLen (S C i : Nat) : Nat := min ((i + 1) * C) S - i * C

/-! ### Chunk uploader: per-chunk retry loop of `uploadFileInChunks`.
A network attempt either yields a parsed chunk-upload response or fails
with an error message; the loop makes at most `maxRetries = 3` attempts,
marks the chunk `retrying` with the error and `retryCount` after each
failure, sleeps `1000 * retryCount` milliseconds before the next attempt,
and marks the chunk `error` when retries are exhausted. -/

/-- The parsed JSON body of a successful chunk-upload request. -/
structure ChunkResp where
  success : Bool
  completed : Bool
  deriving DecidableEq, Repr

/-- Per-chunk status, as in the `ChunkProgress` interface. -/
inductive ChunkStatus where
  | pending
  | uploading
  | completed
  | error
  | retrying
  deriving DecidableEq, Repr

/-- One state transition recorded for a chunk: new status, the chunk's
`retryCount` at that point, and the recorded error message if any. -/
structure ChunkEvent where
  status : ChunkStatus
  retryCount : Nat
  lastError : Option String
  deriving DecidableEq, Repr

/-- The observable outcome of the retry loop for one chunk. -/
structure RetryResult where
  attempts : Nat
  retryCount : Nat
  response : Option ChunkResp
  delays : List Nat
  events : List ChunkEvent
  deriving DecidableEq, Repr

/-- The body of the `while (retryCount < maxRetries && !success)` loop.
`rc` is the current `retryCount`; the fuel argument is `maxRetries - rc`,
which bounds the remaining iterations. -/
def retryLoopAux (resp : Nat → Except String ChunkResp) (maxRetries rc : Nat) :
    Nat → RetryResult
  | 0 => ⟨0, rc, none, [], []⟩
  | fuel + 1 =>
    match resp rc with
    | .ok cr => ⟨1, rc, some cr, [], [⟨.completed, rc, none⟩]⟩
    | .error msg =>
      if maxRetries ≤ rc + 1 then
        ⟨1, rc + 1, none, [],
         [⟨.retrying, rc + 1, some msg⟩, ⟨.error, rc + 1, some msg⟩]⟩
      else
        let rest := retryLoopAux resp maxRetries (rc + 1) fuel
        ⟨rest.attempts + 1, rest.retryCount, rest.response,
         1000 * (rc + 1) :: rest.delays,
         ⟨.retrying, rc + 1, some msg⟩ :: rest.events⟩

/-- The retry loop as run by the source: `retryCount = 0`, `maxRetries = 3`. -/
def retryLoop (resp : Nat → Except String ChunkResp) : RetryResult :=
  retryLoopAux resp 3 0 3

/-! ### Upload orchestrator: the sequential per-chunk loop. -/

/-- Session status, as in the `UploadProgress` interface. -/
inductive UploadStatus where
  | uploading
  | compressing
  | completed
  | error
  deriving DecidableEq, Repr

/-- The observable outcome of one upload session: final status, final
aggregate uploaded bytes, the `uploadedBytes` value at each progress
update issued after a successful chunk, and whether a file record was
registered. -/
structure SessionOutcome where
  status : UploadStatus
  uploadedBytes : Nat
  samples : List Nat
  registered : Bool
  deriving DecidableEq, Repr

/-- The sequential chunk loop over the remaining `(index, size)` pairs,
with `acc` the aggregate uploaded bytes so far.  A chunk whose retries are
exhausted aborts the session with status `error`; a response carrying
`completed = true` marks the session `completed` and registers the file
record; falling off the end of the list leaves the last-set status
`uploading`. -/
def runChunks (resp : Nat → Nat → Except String ChunkResp) :
    List (Nat × Nat) → Nat → SessionOutcome
  | [], acc => ⟨.uploading, acc, [], false⟩
  | (i, sz) :: rest, acc =>
    match (retryLoop (resp i)).response with
    | none => ⟨.error, acc, [], false⟩
    | some cr =>
      let acc2 := acc + sz
      if cr.completed then ⟨.completed, acc2, [acc2], true⟩
      else
        let o := runChunks resp rest acc2
        ⟨o.status, o.uploadedBytes, acc2 :: o.samples, o.registered⟩

/-- One upload session: `totalChunks` is computed from the size `O` the
session was created with (the original file size), while the slices are
taken from the final payload of size `S` (the two coincide unless
compression replaced the payload after chunk planning). -/
def uploadRun (resp : Nat → Nat → Except String ChunkResp) (O S : Nat) :
    SessionOutcome :=
  runChunks resp
    ((List.range (totalChunksOf O defaultChunkSize)).map
      (fun i => (i, sliceLen S defaultChunkSize i))) 0

/-! ### Server side: the chunk-upload response of the `POST` route.
`assembleOk` abstracts whether fetching, concatenating and storing all
chunks succeeds on the final chunk. -/

/-- The response shape of the chunk-upload `POST` route: a non-final chunk
is acknowledged with `completed: false`; the final chunk triggers assembly
and answers `completed: true` on success and an HTTP 500 error otherwise. -/
def serverChunkResponse (chunkIndex totalChunks : Nat) (assembleOk : Bool) :
    Except String ChunkResp :=
  if chunkIndex = totalChunks - 1 then
    if assembleOk then .ok ⟨true, true⟩
    else .error "Failed to combine file chunks"
  else .ok ⟨true, false⟩

/-! ### Download streamer (`downloadWithProgress`). -/

/-- The cumulative `downloadedBytes` value after each received body
fragment, starting from `resumeFrom`. -/
def accumSamples (start : Nat) : List (List Nat) → List Nat
  | [] => []
  | f :: rest => (start + f.length) :: accumSamples (start + f.length) rest

/-- Download session status, as in the `DownloadState` interface. -/
inductive DlStatus where
  | idle
  | downloading
  | paused
  | completed
  | error
  deriving DecidableEq, Repr

/-- The observable outcome of a download invocation that runs to
completion. -/
structure DownloadOutcome where
  rangeHeader : Option String
  totalBytes : Nat
  samples : List Nat
  downloadedBytes : Nat
  fileBytes : List Nat
  status : DlStatus
  deriving DecidableEq, Repr

/-- `downloadWithProgress(resumeFrom)`: send `Range: bytes=<resumeFrom>-`
exactly when `resumeFrom > 0`; set `totalBytes` to the response's declared
content length plus `resumeFrom` (falling back to the caller-supplied file
size when the header is absent); accumulate the body fragments into a
fresh chunk list; on completion materialize exactly those fragments and
report `downloadedBytes = totalBytes`. -/
def downloadWithProgress (fileSize resumeFrom : Nat)
    (contentLength : Option Nat) (fragments : List (List Nat)) :
    DownloadOutcome :=
  let rangeHeader :=
    if 0 < resumeFrom then some ("bytes=" ++ toString resumeFrom ++ "-")
    else none
  let totalBytes :=
    match contentLength with
    | some cl => cl + resumeFrom
    | none => fileSize
  { rangeHeader := rangeHeader
    totalBytes := totalBytes
    samples := accumSamples resumeFrom fragments
    downloadedBytes := totalBytes
    fileBytes := fragments.flatten
    status := .completed }

/-! ### Metadata fetch (`GET /api/get-metadata/[fileId]`): the retention
check. -/

/-- The metadata record written by the assembler. -/
structure FileRecord where
  id : String
  originalName : String
  size : Nat
  originalSize : Nat
  compressed : Bool
  compressionRatio : ℚ
  uploadedAt : String
  blobUrl : String
  deriving DecidableEq, Repr

/-- The fatal result when the retention window has elapsed. -/
inductive MetaFetchError where
  | Expired
  deriving DecidableEq, Repr

/-- 24 hours in milliseconds. -/
def twentyFourHoursMs : Int := 86400000

/-- The retention decision of the metadata route: once the metadata has
been located and parsed, answer HTTP 410 `Expired` when
`now - uploadTime > 24h`, and the record otherwise. -/
def getMetadataDecision (uploadedAtMs nowMs : Int) (rec : FileRecord) :
    Except MetaFetchError FileRecord :=
  if twentyFourHoursMs < nowMs - uploadedAtMs then .error .Expired
  else .ok rec

/-! ### Helper lemmas. -/

theorem totalChunksOf_mul_bounds {S C : Nat} (hC : 0 < C) :
    S ≤ C * totalChunksOf S C ∧ C * totalChunksOf S C < S + C := by
  have hdm := Nat.div_add_mod (S + C - 1) C
  have hml : (S + C - 1) % C < C := Nat.mod_lt _ hC
  unfold totalChunksOf
  generalize hq : (S + C - 1) / C = q at hdm
  generalize hr : (S + C - 1) % C = r at hdm hml
  generalize hP : C * q = P at hdm ⊢
  omega

theorem totalChunksOf_pos {S C : Nat} (hS : 0 < S) (hC : 0 < C) :
    0 < totalChunksOf S C := by
  rcases totalChunksOf_mul_bounds (S := S) hC with ⟨h1, _⟩
  by_contra h
  have : totalChunksOf S C = 0 := by omega
  rw [this, Nat.mul_zero] at h1
  omega

theorem chunkSizesOf_structure {S C : Nat} (hS : 0 < S) (hC : 0 < C) :
    chunkSizesOf S C =
      List.replicate (totalChunksOf S C - 1) C ++
        [S - (totalChunksOf S C - 1) * C] := by
  have htc : 0 < totalChunksOf S C := totalChunksOf_pos hS hC
  set tc := totalChunksOf S C with htcdef
  have hsplit : tc = (tc - 1) + 1 := by omega
  unfold chunkSizesOf
  rw [← htcdef, hsplit, List.range_succ, List.map_append]
  congr 1
  · rw [List.eq_replicate_iff]
    constructor
    · simp
    · intro b hb
      simp only [List.mem_map, List.mem_range] at hb
      obtain ⟨i, hi, hbi⟩ := hb
      rw [← hsplit] at hbi
      have : i ≠ tc - 1 := by omega
      simpa [this] using hbi.symm
  · rw [← hsplit]
    simp

theorem pred_mul_lt {S C : Nat} (hS : 0 < S) (hC : 0 < C) :
    (totalChunksOf S C - 1) * C < S := by
  rcases totalChunksOf_mul_bounds (S := S) hC with ⟨h1, h2⟩
  have hps : (totalChunksOf S C - 1) * C = totalChunksOf S C * C - 1 * C :=
    (Nat.sub_mul _ _ _)
  rw [Nat.mul_comm C (totalChunksOf S C)] at h1 h2
  omega

theorem chunkSizesOf_sum {S C : Nat} (hS : 0 < S) (hC : 0 < C) :
    (chunkSizesOf S C).sum = S := by
  rw [chunkSizesOf_structure hS hC, List.sum_append, List.sum_replicate,
    smul_eq_mul, List.sum_cons, List.sum_nil]
  have := pred_mul_lt hS hC
  omega

theorem sliceLen_sum (S C : Nat) :
    ∀ k, ((List.range k).map (sliceLen S C)).sum = min (k * C) S := by
  intro k
  induction k with
  | zero => simp
  | succ k ih =>
    rw [List.range_succ, List.map_append, List.sum_append, ih]
    simp only [List.map_cons, List.map_nil, List.sum_cons, List.sum_nil,
      sliceLen]
    rw [Nat.succ_mul]
    generalize k * C = a
    rcases Nat.le_total (a + C) S with h | h
    · rw [Nat.min_eq_left h, Nat.min_eq_left (by omega)]
      omega
    · rw [Nat.min_eq_right h]
      rcases Nat.le_total a S with h2 | h2
      · rw [Nat.min_eq_left h2]
        omega
      · rw [Nat.min_eq_right h2]
        omega

theorem runChunks_samples_chain (resp : Nat → Nat → Except String ChunkResp) :
    ∀ (l : List (Nat × Nat)) (acc : Nat),
      List.Chain' (· ≤ ·) (acc :: (runChunks resp l acc).samples) := by
  intro l
  induction l with
  | nil => intro acc; simp [runChunks]
  | cons p rest ih =>
    intro acc
    obtain ⟨i, sz⟩ := p
    cases h : (retryLoop (resp i)).response with
    | none => simp [runChunks, h]
    | some cr =>
      by_cases hc : cr.completed
      · simp only [runChunks, h, hc, if_true]
        exact List.chain'_cons.mpr ⟨Nat.le_add_right _ _,
          List.chain'_singleton _⟩
      · simp only [runChunks, h]
        rw [if_neg hc]
        exact List.chain'_cons.mpr ⟨Nat.le_add_right _ _, ih (acc + sz)⟩

theorem runChunks_samples_le (resp : Nat → Nat → Except String ChunkResp) :
    ∀ (l : List (Nat × Nat)) (acc : Nat) (b : Nat),
      b ∈ (runChunks resp l acc).samples →
        b ≤ acc + (l.map Prod.snd).sum := by
  intro l
  induction l with
  | nil => intro acc b hb; simp [runChunks] at hb
  | cons p rest ih =>
    intro acc b hb
    obtain ⟨i, sz⟩ := p
    rw [runChunks] at hb
    cases h : (retryLoop (resp i)).response with
    | none => rw [h] at hb; simp at hb
    | some cr =>
      rw [h] at hb
      by_cases hc : cr.completed
      · simp only [hc, if_pos, List.mem_singleton] at hb
        subst hb
        simp only [List.map_cons, List.sum_cons]
        omega
      · simp only [hc, Bool.false_eq_true, if_neg, not_false_iff,
          List.mem_cons] at hb
        simp only [List.map_cons, List.sum_cons]
        rcases hb with hb | hb
        · omega
        · have := ih (acc + sz) b hb
          omega

theorem accumSamples_chain (start : Nat) (frags : List (List Nat)) :
    List.Chain' (· ≤ ·) (start :: accumSamples start frags) := by
  induction frags generalizing start with
  | nil => simp [accumSamples]
  | cons f rest ih =>
    rw [accumSamples]
    exact List.chain'_cons.mpr ⟨Nat.le_add_right _ _, ih (start + f.length)⟩

theorem accumSamples_le (start : Nat) (frags : List (List Nat)) :
    ∀ b ∈ accumSamples start frags,
      b ≤ start + (frags.map List.length).sum := by
  induction frags generalizing start with
  | nil => simp [accumSamples]
  | cons f rest ih =>
    intro b hb
    rw [accumSamples] at hb
    simp only [List.mem_cons] at hb
    simp only [List.map_cons, List.sum_cons]
    rcases hb with hb | hb
    · omega
    · have := ih (start + f.length) b hb
      omega

/-- The final payload is never longer than the original: the compressed
bytes are kept only when the reported ratio is at least 5 percent. -/
theorem uploadPayload_length_le (gz : List Nat → List Nat) (gzOk : Bool)
    (compressionEnabled : Bool) (fileName mimeType : String)
    (data : List Nat) :
    (uploadPayload gz gzOk compressionEnabled fileName mimeType data).2.length
      ≤ data.length := by
  unfold uploadPayload
  by_cases hs : shouldCompress compressionEnabled fileName mimeType data.length
  · cases gzOk with
    | false => simp [hs]
    | true =>
      simp only [hs, if_pos, if_true]
      unfold compressFileModel
      set L := data.length with hL
      have hLpos : 0 < L := by
        have : (1024 * 100 : Nat) < L := by
          have := hs
          unfold shouldCompress at this
          simp only [Bool.and_eq_true, decide_eq_true_eq] at this
          exact this.1.2
        omega
      by_cases hr : (1 - ((gz data).length : ℚ) / (L : ℚ)) * 100 < 5
      · simp [hr]
      · simp only [hr, if_neg, not_false_iff]
        push_neg at hr
        by_cases hpos :
            (0 : ℚ) < (1 - ((gz data).length : ℚ) / (L : ℚ)) * 100
        · simp only [hpos, if_pos]
          have hq : ((gz data).length : ℚ) / (L : ℚ) ≤ 1 - 5 / 100 := by
            nlinarith
          have hLQ : (0 : ℚ) < (L : ℚ) := by exact_mod_cast hLpos
          have hcl : ((gz data).length : ℚ) ≤ (1 - 5 / 100) * (L : ℚ) := by
            rw [div_le_iff₀ hLQ] at hq
            linarith
          have : ((gz data).length : ℚ) ≤ (L : ℚ) := by nlinarith
          exact_mod_cast this
        · simp [hpos]
  · simp [hs]

/-! ### The claims. -/

/-- Claim C1: for every payload of size `S > 0` and chunk size `C > 0`,
the chunk splitter produces `totalChunks = ceil(S/C)` chunks (captured by
`S ≤ C * totalChunks < S + C`); every chunk except the last has size
exactly `C`, the last has size `S - (totalChunks - 1) * C`, and the chunk
sizes sum to `S`.  In particular a 4 MiB payload with the default 1.5 MiB
chunk size yields chunks of 1.5 MiB, 1.5 MiB and 1 MiB. -/
theorem chunk_splitter_spec (S C : Nat) (hS : 0 < S) (hC : 0 < C) :
    (chunkSizesOf S C).length = totalChunksOf S C ∧
    S ≤ C * totalChunksOf S C ∧ C * totalChunksOf S C < S + C ∧
    chunkSizesOf S C =
      List.replicate (totalChunksOf S C - 1) C ++
        [S - (totalChunksOf S C - 1) * C] ∧
    (chunkSizesOf S C).sum = S ∧
    totalChunksOf 4194304 defaultChunkSize = 3 ∧
    chunkSizesOf 4194304 defaultChunkSize = [1572864, 1572864, 1048576] := by
  obtain ⟨h1, h2⟩ := totalChunksOf_mul_bounds (S := S) hC
  refine ⟨?_, h1, h2, chunkSizesOf_structure hS hC, chunkSizesOf_sum hS hC,
    by decide, by decide⟩
  simp [chunkSizesOf]

theorem chunk_splitter_spec_witness :
    (0 < 4194304 ∧ 0 < 1572864) ∧
      (chunkSizesOf 4194304 1572864).sum = 4194304 :=
  ⟨⟨by decide, by decide⟩,
   (chunk_splitter_spec 4194304 1572864 (by decide) (by decide)).2.2.2.2.1⟩

/-- Claim C2: a chunk upload whose request fails on every attempt makes
exactly 3 attempts, waits `retryCount × 1000` ms between consecutive
attempts, marks the chunk `retrying` with the error after each failure and
`error` after the final one, and the session then has status `error`; a
chunk that fails twice and succeeds on the third attempt ends `completed`
with `retryCount = 2`. -/
theorem chunk_retry_spec :
    (∀ (resp : Nat → Except String ChunkResp) (m : Nat → String),
      (∀ k, resp k = .error (m k)) →
      retryLoop resp =
        ⟨3, 3, none, [1000, 2000],
         [⟨.retrying, 1, some (m 0)⟩, ⟨.retrying, 2, some (m 1)⟩,
          ⟨.retrying, 3, some (m 2)⟩, ⟨.error, 3, some (m 2)⟩]⟩) ∧
    (∀ (resp : Nat → Nat → Except String ChunkResp) (m : Nat → String)
        (i sz : Nat) (rest : List (Nat × Nat)) (acc : Nat),
      (∀ k, resp i k = .error (m k)) →
      (runChunks resp ((i, sz) :: rest) acc).status = .error) ∧
    (∀ (resp : Nat → Except String ChunkResp) (m0 m1 : String)
        (cr : ChunkResp),
      resp 0 = .error m0 → resp 1 = .error m1 → resp 2 = .ok cr →
      retryLoop resp =
        ⟨3, 2, some cr, [1000, 2000],
         [⟨.retrying, 1, some m0⟩, ⟨.retrying, 2, some m1⟩,
          ⟨.completed, 2, none⟩]⟩) := by
  have hall : ∀ (resp : Nat → Except String ChunkResp) (m : Nat → String),
      (∀ k, resp k = .error (m k)) →
      retryLoop resp =
        ⟨3, 3, none, [1000, 2000],
         [⟨.retrying, 1, some (m 0)⟩, ⟨.retrying, 2, some (m 1)⟩,
          ⟨.retrying, 3, some (m 2)⟩, ⟨.error, 3, some (m 2)⟩]⟩ := by
    intro resp m h
    simp [retryLoop, retryLoopAux, h 0, h 1, h 2]
  refine ⟨hall, ?_, ?_⟩
  · intro resp m i sz rest acc h
    have hr := hall (resp i) m h
    simp [runChunks, hr]
  · intro resp m0 m1 cr h0 h1 h2
    simp [retryLoop, retryLoopAux, h0, h1, h2]

theorem chunk_retry_spec_witness :
    retryLoop (fun _ => Except.error "network down") =
      ⟨3, 3, none, [1000, 2000],
       [⟨.retrying, 1, some "network down"⟩,
        ⟨.retrying, 2, some "network down"⟩,
        ⟨.retrying, 3, some "network down"⟩,
        ⟨.error, 3, some "network down"⟩]⟩ :=
  chunk_retry_spec.1 (fun _ => Except.error "network down")
    (fun _ => "network down") (fun _ => rfl)

/-- Claim C3: every compression attempt either keeps the original bytes
with `compressedFlag = false`, or sets `compressedFlag = true` with the
gzip output as payload, in which case gunzipping recovers the original
bytes exactly; hence serving the stored object through the download path
(which gunzips iff the flag is set) always yields the original bytes.
The gzip codec is external (`pako`), so it appears as a parameter
constrained by its round-trip law. -/
theorem compression_roundtrip_spec (gz ungz : List Nat → List Nat)
    (hrt : ∀ x, ungz (gz x) = x) (gzOk compressionEnabled : Bool)
    (fileName mimeType : String) (data : List Nat) :
    (((uploadPayload gz gzOk compressionEnabled fileName mimeType data).1
        = false ∧
      (uploadPayload gz gzOk compressionEnabled fileName mimeType data).2
        = data) ∨
     ((uploadPayload gz gzOk compressionEnabled fileName mimeType data).1
        = true ∧
      ungz
        (uploadPayload gz gzOk compressionEnabled fileName mimeType data).2
        = data)) ∧
    downloadServe ungz
      (uploadPayload gz gzOk compressionEnabled fileName mimeType data).1
      (uploadPayload gz gzOk compressionEnabled fileName mimeType data).2
      = data := by
  have hd : ((uploadPayload gz gzOk compressionEnabled fileName mimeType
        data).1 = false ∧
      (uploadPayload gz gzOk compressionEnabled fileName mimeType data).2
        = data) ∨
      ((uploadPayload gz gzOk compressionEnabled fileName mimeType data).1
        = true ∧
      ungz
        (uploadPayload gz gzOk compressionEnabled fileName mimeType data).2
        = data) := by
    unfold uploadPayload
    by_cases hs :
        shouldCompress compressionEnabled fileName mimeType data.length
    · cases gzOk with
      | false => simp [hs]
      | true =>
        simp only [hs, if_true]
        unfold compressFileModel
        by_cases hr : (1 - ((gz data).length : ℚ) / (data.length : ℚ)) * 100
            < 5
        · simp [hr]
        · have hpos :
              (0 : ℚ) < (1 - ((gz data).length : ℚ) / (data.length : ℚ))
                * 100 := by
            push_neg at hr
            linarith
          simp only [hr, if_neg, not_false_iff, if_false]
          simp only [hpos, if_pos]
          exact Or.inr ⟨by simp, by simpa using hrt data⟩
    · simp [hs]
  refine ⟨hd, ?_⟩
  rcases hd with ⟨hf, hb⟩ | ⟨hf, hb⟩
  · rw [downloadServe, hf]
    simpa using hb
  · rw [downloadServe, hf]
    simpa using hb

theorem compression_roundtrip_spec_witness :
    downloadServe id
      (uploadPayload id true true "sample.txt" "text/plain" [1, 2, 3]).1
      (uploadPayload id true true "sample.txt" "text/plain" [1, 2, 3]).2
      = [1, 2, 3] :=
  (compression_roundtrip_spec id id (fun _ => rfl) true true "sample.txt"
    "text/plain" [1, 2, 3]).2

/-- Claim C4: a download resumed with `resumeOffset > 0` sends the header
`bytes=<resumeOffset>-`, sets `totalBytes` to the declared content length
plus the offset, and (when the body delivers its declared length)
accumulates exactly `contentLength` further bytes before completing with
`downloadedBytes = totalBytes`; a download started from 0 sends no Range
header.  In particular resuming at 2 MiB of a 5 MiB file requests
`bytes=2097152-`, accumulates exactly 3 MiB more, and completes at
5 MiB. -/
theorem download_resume_spec :
    (∀ (fileSize r cl : Nat) (frags : List (List Nat)), 0 < r →
      (frags.map List.length).sum = cl →
      (downloadWithProgress fileSize r (some cl) frags).rangeHeader
        = some ("bytes=" ++ toString r ++ "-") ∧
      (downloadWithProgress fileSize r (some cl) frags).totalBytes
        = cl + r ∧
      (downloadWithProgress fileSize r (some cl) frags).fileBytes.length
        = cl ∧
      (downloadWithProgress fileSize r (some cl) frags).downloadedBytes
        = cl + r) ∧
    (∀ (fileSize : Nat) (contentLength : Option Nat)
        (frags : List (List Nat)),
      (downloadWithProgress fileSize 0 contentLength frags).rangeHeader
        = none) ∧
    (∀ frags : List (List Nat), (frags.map List.length).sum = 3145728 →
      (downloadWithProgress 5242880 2097152 (some 3145728) frags).rangeHeader
        = some "bytes=2097152-" ∧
      (downloadWithProgress 5242880 2097152 (some 3145728) frags).totalBytes
        = 5242880 ∧
      (downloadWithProgress 5242880 2097152
          (some 3145728) frags).fileBytes.length = 3145728 ∧
      (downloadWithProgress 5242880 2097152
          (some 3145728) frags).downloadedBytes = 5242880) := by
  have hgen : ∀ (fileSize r cl : Nat) (frags : List (List Nat)), 0 < r →
      (frags.map List.length).sum = cl →
      (downloadWithProgress fileSize r (some cl) frags).rangeHeader
        = some ("bytes=" ++ toString r ++ "-") ∧
      (downloadWithProgress fileSize r (some cl) frags).totalBytes
        = cl + r ∧
      (downloadWithProgress fileSize r (some cl) frags).fileBytes.length
        = cl ∧
      (downloadWithProgress fileSize r (some cl) frags).downloadedBytes
        = cl + r := by
    intro fileSize r cl frags hr hsum
    refine ⟨?_, rfl, ?_, rfl⟩
    · simp [downloadWithProgress, hr]
    · simp [downloadWithProgress, List.length_flatten, hsum]
  refine ⟨hgen, ?_, ?_⟩
  · intro fileSize contentLength frags
    simp [downloadWithProgress]
  · intro frags hsum
    have := hgen 5242880 2097152 3145728 frags (by decide) hsum
    simpa using this

theorem download_resume_spec_witness :
    (downloadWithProgress 10 2 (some 3) [[7, 8, 9]]).rangeHeader
      = some ("bytes=" ++ toString 2 ++ "-") ∧
    (downloadWithProgress 10 2 (some 3) [[7, 8, 9]]).totalBytes = 3 + 2 ∧
    (downloadWithProgress 10 2 (some 3) [[7, 8, 9]]).fileBytes.length = 3 ∧
    (downloadWithProgress 10 2 (some 3) [[7, 8, 9]]).downloadedBytes
      = 3 + 2 :=
  download_resume_spec.1 10 2 3 [[7, 8, 9]] (by decide) (by decide)

/-- Claim C5: the chunk-upload response carries `completed = true` exactly
for the final chunk index once assembly succeeds; every non-final chunk is
answered with `completed = false`; and on a `completed = true` response
the orchestrator marks the session `completed` and registers the file
record. -/
theorem chunk_completed_spec (i n : Nat) (_hn : 0 < n) (assembleOk : Bool) :
    ((∃ r, serverChunkResponse i n assembleOk = .ok r ∧ r.completed = true)
      ↔ (i = n - 1 ∧ assembleOk = true)) ∧
    (i ≠ n - 1 → serverChunkResponse i n assembleOk = .ok ⟨true, false⟩) ∧
    (∀ (resp : Nat → Nat → Except String ChunkResp) (sz : Nat)
        (rest : List (Nat × Nat)) (acc : Nat) (cr : ChunkResp),
      (retryLoop (resp i)).response = some cr → cr.completed = true →
      runChunks resp ((i, sz) :: rest) acc
        = ⟨.completed, acc + sz, [acc + sz], true⟩) := by
  refine ⟨?_, ?_, ?_⟩
  · constructor
    · rintro ⟨r, hr, hc⟩
      unfold serverChunkResponse at hr
      by_cases hi : i = n - 1
      · cases assembleOk with
        | true => exact ⟨hi, rfl⟩
        | false => simp [hi] at hr
      · simp only [hi, if_neg, not_false_iff] at hr
        cases hr
        simp at hc
    · rintro ⟨hi, hok⟩
      subst hok
      exact ⟨⟨true, true⟩, by simp [serverChunkResponse, hi], rfl⟩
  · intro hi
    simp [serverChunkResponse, hi]
  · intro resp sz rest acc cr hresp hc
    simp [runChunks, hresp, hc]

theorem chunk_completed_spec_witness :
    ((∃ r, serverChunkResponse 2 3 true = .ok r ∧ r.completed = true)
      ↔ ((2 : Nat) = 3 - 1 ∧ true = true)) ∧
    ((2 : Nat) ≠ 3 - 1 → serverChunkResponse 2 3 true = .ok ⟨true, false⟩) ∧
    (∀ (resp : Nat → Nat → Except String ChunkResp) (sz : Nat)
        (rest : List (Nat × Nat)) (acc : Nat) (cr : ChunkResp),
      (retryLoop (resp 2)).response = some cr → cr.completed = true →
      runChunks resp ((2, sz) :: rest) acc
        = ⟨.completed, acc + sz, [acc + sz], true⟩) :=
  chunk_completed_spec 2 3 (by decide) true

/-- Claim C6 fails at the threshold boundary: a plain-text file of exactly
102400 bytes (100 KiB) is not below the claimed minimum threshold and
matches no precompressed pattern, yet the decision is still `false`,
because the source requires `size > 1024 * 100` strictly. -/
theorem compression_decider_boundary :
    shouldCompress true "notes.txt" "text/plain" 102400 = false ∧
    ¬ (102400 : Nat) < 102400 ∧
    isAlreadyCompressed "notes.txt" "text/plain" = false := by
  refine ⟨by decide, by decide, by decide⟩

/-- Claim C6 amended: with compression enabled, the decision is a pure
function of `(fileName, mimeType, sizeBytes)` that returns `true` iff the
size strictly exceeds 100 KiB and neither the lowercased name's extension
nor the MIME type matches the known-precompressed set; it returns `false`
whenever the size is at most 100 KiB (not merely when it is below it), so
a 50 KB text file is uploaded uncompressed with its bytes unchanged. -/
theorem compression_decider_spec :
    (∀ (fileName mimeType : String) (size : Nat),
      shouldCompress true fileName mimeType size = true ↔
        (1024 * 100 < size ∧
          isAlreadyCompressed fileName mimeType = false)) ∧
    (∀ (fileName mimeType : String) (size : Nat), size ≤ 1024 * 100 →
      shouldCompress true fileName mimeType size = false) ∧
    (∀ (fileName mimeType : String) (size : Nat),
      isAlreadyCompressed fileName mimeType = true →
      shouldCompress true fileName mimeType size = false) ∧
    (∀ (gz : List Nat → List Nat) (gzOk : Bool)
        (fileName mimeType : String) (data : List Nat),
      data.length ≤ 1024 * 100 →
      uploadPayload gz gzOk true fileName mimeType data = (false, data)) ∧
    (∀ (gz : List Nat → List Nat) (gzOk : Bool) (data : List Nat),
      data.length = 51200 →
      uploadPayload gz gzOk true "report.txt" "text/plain" data
        = (false, data)) := by
  have hiff : ∀ (fileName mimeType : String) (size : Nat),
      shouldCompress true fileName mimeType size = true ↔
        (1024 * 100 < size ∧
          isAlreadyCompressed fileName mimeType = false) := by
    intro fileName mimeType size
    simp [shouldCompress]
  have hsmall : ∀ (fileName mimeType : String) (size : Nat),
      size ≤ 1024 * 100 →
      shouldCompress true fileName mimeType size = false := by
    intro fileName mimeType size hsz
    rcases h : shouldCompress true fileName mimeType size with _ | _
    · rfl
    · have := (hiff fileName mimeType size).mp h
      omega
  have hpay : ∀ (gz : List Nat → List Nat) (gzOk : Bool)
      (fileName mimeType : String) (data : List Nat),
      data.length ≤ 1024 * 100 →
      uploadPayload gz gzOk true fileName mimeType data = (false, data) := by
    intro gz gzOk fileName mimeType data hlen
    unfold uploadPayload
    rw [hsmall fileName mimeType data.length hlen]
    simp
  refine ⟨hiff, hsmall, ?_, hpay, ?_⟩
  · intro fileName mimeType size hmatch
    rcases h : shouldCompress true fileName mimeType size with _ | _
    · rfl
    · have := (hiff fileName mimeType size).mp h
      rw [hmatch] at this
      exact absurd this.2 (by simp)
  · intro gz gzOk data hlen
    exact hpay gz gzOk "report.txt" "text/plain" data (by omega)

theorem compression_decider_spec_witness :
    shouldCompress true "report.txt" "text/plain" 51200 = false :=
  compression_decider_spec.2.1 "report.txt" "text/plain" 51200 (by decide)

/-- Claim C7: a metadata fetch for a record whose `uploadedAt` lies more
than 24 hours in the past (e.g. 25 hours, 90000000 ms) answers with the
`Expired` error signal rather than the record, while a fetch within the
24-hour retention window returns the record. -/
theorem metadata_expiry_spec (uploadedAtMs nowMs : Int) (rec : FileRecord) :
    (twentyFourHoursMs < nowMs - uploadedAtMs →
      getMetadataDecision uploadedAtMs nowMs rec = .error .Expired) ∧
    (nowMs - uploadedAtMs ≤ twentyFourHoursMs →
      getMetadataDecision uploadedAtMs nowMs rec = .ok rec) ∧
    getMetadataDecision 0 90000000 rec = .error .Expired ∧
    getMetadataDecision 0 3600000 rec = .ok rec := by
  refine ⟨?_, ?_, ?_, ?_⟩
  · intro h
    simp [getMetadataDecision, h]
  · intro h
    rw [getMetadataDecision, if_neg (by omega)]
  · rw [getMetadataDecision, if_pos (by decide)]
  · rw [getMetadataDecision, if_neg (by decide)]

theorem metadata_expiry_spec_witness :
    getMetadataDecision 0 90000000
        ⟨"f1", "a.txt", 10, 10, false, 0, "t", "u"⟩
      = .error .Expired ∧
    getMetadataDecision 0 3600000
        ⟨"f1", "a.txt", 10, 10, false, 0, "t", "u"⟩
      = .ok ⟨"f1", "a.txt", 10, 10, false, 0, "t", "u"⟩ :=
  ⟨(metadata_expiry_spec 0 90000000
      ⟨"f1", "a.txt", 10, 10, false, 0, "t", "u"⟩).1 (by decide),
   (metadata_expiry_spec 0 3600000
      ⟨"f1", "a.txt", 10, 10, false, 0, "t", "u"⟩).2.1 (by decide)⟩

/-- Claim C8 fails on the code: for an empty payload `Math.ceil(0 / C)` is
`0`, so the splitter produces zero chunks, not one zero-length chunk, and
because no chunk-upload response ever arrives the session never reaches
`completed` — it is left in status `uploading`. -/
theorem empty_payload_counterexample :
    totalChunksOf 0 defaultChunkSize = 0 ∧
    ¬ totalChunksOf 0 defaultChunkSize = 1 ∧
    chunkSizesOf 0 defaultChunkSize = [] ∧
    (uploadRun (fun _ _ => Except.ok ⟨true, true⟩) 0 0).status
      = .uploading ∧
    ¬ (uploadRun (fun _ _ => Except.ok ⟨true, true⟩) 0 0).status
      = .completed := by
  refine ⟨by decide, by decide, by decide, by decide, by decide⟩

/-- Claim C8 amended: for an empty payload (size 0) the chunk splitter
produces zero chunks (`totalChunks = 0`); the upload loop performs no
chunk uploads and does not crash, but the session never transitions to
`completed` — it remains in status `uploading`, with no bytes uploaded and
no file record registered. -/
theorem empty_payload_spec (resp : Nat → Nat → Except String ChunkResp) :
    totalChunksOf 0 defaultChunkSize = 0 ∧
    chunkSizesOf 0 defaultChunkSize = [] ∧
    uploadRun resp 0 0 = ⟨.uploading, 0, [], false⟩ := by
  refine ⟨by decide, by decide, ?_⟩
  show runChunks resp
    ((List.range (totalChunksOf 0 defaultChunkSize)).map
      (fun i => (i, sliceLen 0 defaultChunkSize i))) 0 = _
  have h0 : totalChunksOf 0 defaultChunkSize = 0 := by decide
  rw [h0]
  rfl

/-- Claim C9: within one session the aggregate `uploadedBytes` (upload)
and `downloadedBytes` (download) values never decrease between
consecutive progress samples, and — provided the response body delivers
its declared length — the fraction transferred over the declared total
never exceeds 1.  The upload total is the original size `O`; the final
payload size `S` never exceeds it (`uploadPayload_length_le`). -/
theorem progress_monotone_spec :
    (∀ (resp : Nat → Nat → Except String ChunkResp)
        (l : List (Nat × Nat)) (acc : Nat),
      List.Chain' (· ≤ ·) (acc :: (runChunks resp l acc).samples)) ∧
    (∀ (resp : Nat → Nat → Except String ChunkResp) (O S : Nat),
      S ≤ O → ∀ b ∈ (uploadRun resp O S).samples,
        b ≤ O ∧ ((b : ℚ) / (O : ℚ)) ≤ 1) ∧
    (∀ (start : Nat) (frags : List (List Nat)),
      List.Chain' (· ≤ ·) (start :: accumSamples start frags)) ∧
    (∀ (fileSize r cl : Nat) (frags : List (List Nat)),
      (frags.map List.length).sum = cl →
      ∀ b ∈ (downloadWithProgress fileSize r (some cl) frags).samples,
        b ≤ (downloadWithProgress fileSize r (some cl) frags).totalBytes ∧
        ((b : ℚ) /
          ((downloadWithProgress fileSize r (some cl) frags).totalBytes : ℚ))
          ≤ 1) := by
  have hfrac : ∀ b T : Nat, b ≤ T → ((b : ℚ) / (T : ℚ)) ≤ 1 := by
    intro b T hbT
    rcases Nat.eq_zero_or_pos T with hT | hT
    · subst hT
      simp
    · have hTQ : (0 : ℚ) < (T : ℚ) := by exact_mod_cast hT
      rw [div_le_one hTQ]
      exact_mod_cast hbT
  refine ⟨runChunks_samples_chain, ?_, accumSamples_chain, ?_⟩
  · intro resp O S hOS b hb
    have hsum := runChunks_samples_le resp
      ((List.range (totalChunksOf O defaultChunkSize)).map
        (fun i => (i, sliceLen S defaultChunkSize i))) 0 b hb
    have hmap : (((List.range (totalChunksOf O defaultChunkSize)).map
        (fun i => (i, sliceLen S defaultChunkSize i))).map Prod.snd)
        = (List.range (totalChunksOf O defaultChunkSize)).map
            (sliceLen S defaultChunkSize) := by
      rw [List.map_map]
      rfl
    rw [hmap, sliceLen_sum] at hsum
    have hbO : b ≤ O := by
      have := Nat.min_le_right
        (totalChunksOf O defaultChunkSize * defaultChunkSize) S
      omega
    exact ⟨hbO, hfrac b O hbO⟩
  · intro fileSize r cl frags hsum b hb
    have hle := accumSamples_le r frags b hb
    rw [hsum] at hle
    have htb : (downloadWithProgress fileSize r (some cl) frags).totalBytes
        = cl + r := rfl
    rw [htb]
    exact ⟨by omega, hfrac b (cl + r) (by omega)⟩

theorem progress_monotone_spec_witness :
    ((5 : Nat) ≤ 10 ∧
      (5 : Nat) ∈ (uploadRun
        (fun _ _ => Except.ok ⟨true, false⟩) 10 5).samples) ∧
    ((5 : Nat) ≤ 10 ∧ ((5 : ℚ) / (10 : ℚ)) ≤ 1) :=
  ⟨⟨by decide, by decide⟩,
   progress_monotone_spec.2.1 (fun _ _ => Except.ok ⟨true, false⟩) 10 5
     (by decide) 5 (by decide)⟩

/-- Claim C10: a resumed download materializes only the fragments of the
ranged response — the chunk accumulator starts empty on each invocation —
so the buffer handed to the caller has length `totalBytes - resumeFrom`
rather than `totalBytes`, even though `downloadedBytes` is reported as
`totalBytes` at completion. -/
theorem resume_drops_prior_bytes (fileSize r cl : Nat)
    (frags : List (List Nat)) (hr : 0 < r)
    (hsum : (frags.map List.length).sum = cl) :
    (downloadWithProgress fileSize r (some cl) frags).fileBytes
      = frags.flatten ∧
    (downloadWithProgress fileSize r (some cl) frags).fileBytes.length
      = (downloadWithProgress fileSize r (some cl) frags).totalBytes - r ∧
    (downloadWithProgress fileSize r (some cl) frags).fileBytes.length
      < (downloadWithProgress fileSize r (some cl) frags).totalBytes ∧
    (downloadWithProgress fileSize r (some cl) frags).downloadedBytes
      = (downloadWithProgress fileSize r (some cl) frags).totalBytes := by
  have hlen : (downloadWithProgress fileSize r
      (some cl) frags).fileBytes.length = cl := by
    simp [downloadWithProgress, List.length_flatten, hsum]
  have htb : (downloadWithProgress fileSize r (some cl) frags).totalBytes
      = cl + r := rfl
  refine ⟨rfl, ?_, ?_, rfl⟩
  · rw [hlen, htb]
    omega
  · rw [hlen, htb]
    omega

theorem resume_drops_prior_bytes_witness :
    (downloadWithProgress 10 2 (some 3) [[7, 8, 9]]).fileBytes
      = [[7, 8, 9]].flatten ∧
    (downloadWithProgress 10 2 (some 3) [[7, 8, 9]]).fileBytes.length
      = (downloadWithProgress 10 2 (some 3) [[7, 8, 9]]).totalBytes - 2 ∧
    (downloadWithProgress 10 2 (some 3) [[7, 8, 9]]).fileBytes.length
      < (downloadWithProgress 10 2 (some 3) [[7, 8, 9]]).totalBytes ∧
    (downloadWithProgress 10 2 (some 3) [[7, 8, 9]]).downloadedBytes
      = (downloadWithProgress 10 2 (some 3) [[7, 8, 9]]).totalBytes :=
  resume_drops_prior_bytes 10 2 3 [[7, 8, 9]] (by decide) (by decide)

end FileNow
